import Mathlib

/-!
# Verification of the courts-db-ts matching pipeline

Shallow embedding of `src/index.ts` and `src/utils.ts` of the
`@amjur/courts-db-ts` package.  The registry data (`courts.json`), the
PCRE engine (`@syntropiq/xtrax`), the `unidecode` package and the
`stripPunc` text helper are external to the embedded core; they are
represented by explicit parameters (lists of records, abstract match
functions, an abstract normalization function).  JavaScript `Date`
values are represented by integer timestamps, `null`/`undefined` by
`Option`, and JavaScript string truthiness (`""` is falsy) is modelled
explicitly.
-/

namespace CourtsDb

/-- A start/end pair from a record's `dates` array (`activeRanges` in the
spec).  The JSON strings have already been parsed into timestamps, which
we model as integers; a missing or falsy bound is `none`
(`dateRange.start ? new Date(dateRange.start) : null`). -/
structure DateRange where
  start : Option Int
  «end» : Option Int
deriving DecidableEq, Repr

/-- A court record as consumed by `index.ts`/`utils.ts`: `id`, `name`,
optional `parent`, `type` (the jurisdiction category, e.g.
`"bankruptcy"`), `location`, `jurisdiction`, and the `dates` ranges.
Absent or `null` string fields are `none`. -/
structure Court where
  id : String
  name : String
  parent : Option String := none
  type : Option String := none
  location : Option String := none
  jurisdiction : Option String := none
  dates : List DateRange := []
deriving DecidableEq, Repr

/-- JavaScript `s.includes(sub)`: `sub` occurs as a contiguous substring
of `s`. -/
def jsIncludes (s sub : String) : Bool :=
  decide (sub.data <:+: s.data)

/-- JavaScript truthiness of a `string | null | undefined` value:
`null`, `undefined` and `""` are falsy. -/
def jsTruthyStr : Option String → Bool
  | none => false
  | some s => s ≠ ""

/-- JavaScript `s.toLowerCase()`: lower-case every character.  (Stated
over the character list so that it reduces inside the kernel; it agrees
with `String.toLower`, which maps the same `Char.toLower` over the
string.) -/
def jsToLower (s : String) : String :=
  ⟨s.data.map Char.toLower⟩

/-- `utils.ts` `isBankruptcyCourt`: the id contains `"bap"` or `"bank"`,
or the lower-cased name contains `"bankruptcy"`. -/
def isBankruptcyCourt (court : Court) : Bool :=
  jsIncludes court.id "bap" ||
  jsIncludes court.id "bank" ||
  jsIncludes (jsToLower court.name) "bankruptcy"

/-- `utils.ts` `matchesLocation`: an empty filter matches everything;
otherwise the lower-cased filter must occur in the record's truthy
`location`, in its `name`, or in its truthy `jurisdiction`. -/
def matchesLocation (court : Court) (location : String) : Bool :=
  if location = "" then true
  else
    let locationLower := jsToLower location
    (jsTruthyStr court.location &&
      jsIncludes (jsToLower (court.location.getD "")) locationLower) ||
    jsIncludes (jsToLower court.name) locationLower ||
    (jsTruthyStr court.jurisdiction &&
      jsIncludes (jsToLower (court.jurisdiction.getD "")) locationLower)

/-- `utils.ts` `isCourtActiveOnDate`: some range of `court.dates`
admits the date; a range with no bounds always does, a start-only range
for dates `≥ start`, an end-only range for dates `≤ end`, a two-bound
range for dates in `[start, end]`.  A `null` date (`if (!date) return
true`) always passes. -/
def isCourtActiveOnDate (court : Court) (date : Option Int) : Bool :=
  match date with
  | none => true
  | some d =>
    court.dates.any fun r =>
      match r.start, r.«end» with
      | none, none => true
      | none, some e => d ≤ e
      | some s, none => s ≤ d
      | some s, some e => s ≤ d && d ≤ e

/-- `utils.ts` `makeCourtDictionary`: a JavaScript object built by
assigning `courtDict[court.id] = court` in list order, so the last
record with a given id wins. -/
def makeCourtDictionary (courts : List Court) : String → Option Court :=
  fun id => courts.foldl (fun acc c => if c.id = id then some c else acc) none

/-- The `if (!court.parent) court.parent = null` normalization in
`loadCourtsDb`: falsy parents (absent or `""`) become `none`. -/
def normalizeParent : Option String → Option String
  | none => none
  | some p => if p = "" then none else some p

/-- The field-inheritance block of `loadCourtsDb`: copy `dates` when the
child's are missing/empty, and `type`/`location` when falsy, from the
found parent record. -/
def inheritFields (child parentC : Court) : Court :=
  let c2 := if child.dates.isEmpty then { child with dates := parentC.dates } else child
  let c3 := if jsTruthyStr c2.type then c2 else { c2 with type := parentC.type }
  if jsTruthyStr c3.location then c3 else { c3 with location := parentC.location }

/-- One iteration of the `for (const court of data)` loop in
`loadCourtsDb` (lines 142-163 of `utils.ts`), acting on position `i` of
the in-place mutated array: normalize the parent field, then, if the
parent id is truthy and `data.find(c => c.id === court.parent)` locates
a record in the *current* array, inherit missing fields from it. -/
def inheritStep (data : List Court) (i : Nat) : List Court :=
  match data[i]? with
  | none => data
  | some court =>
    let court1 := { court with parent := normalizeParent court.parent }
    let data1 := data.set i court1
    match court1.parent with
    | none => data1
    | some p =>
      match data1.find? (fun c => c.id == p) with
      | none => data1
      | some parentC => data1.set i (inheritFields court1 parentC)

/-- The loop of `loadCourtsDb` run from index `i` with explicit fuel;
the JavaScript `for...of` visits indices `0, 1, ...` of an array whose
length never changes, so fuel `data.length` reproduces it exactly. -/
def inheritLoop : Nat → List Court → Nat → List Court
  | 0, data, _ => data
  | fuel + 1, data, i =>
    if i < data.length then inheritLoop fuel (inheritStep data i) (i + 1) else data

/-- The parent-inheritance pass of `loadCourtsDb` (`utils.ts` lines
141-166), as a pure function on the already-parsed record list (file
reading and variable substitution are external to this pass).  It is
total: no branch can fail or abort. -/
def inheritFromParents (data : List Court) : List Court :=
  inheritLoop data.length data 0

/-- The result object of `pcreRegex.match(input)` when it is not
`null`: the `matched` flag and the optional `fullMatch` text. -/
structure MatchRes where
  matched : Bool
  fullMatch : Option String
deriving DecidableEq, Repr

/-- A compiled PCRE regex as used by `findCourtIdsByName`: the engine
itself is external, so a compiled pattern is just its `match` method, a
function from the input string to an optional match result. -/
abbrev Regex := String → Option MatchRes

/-- A raw candidate `{courtId, matchedText}` pushed by
`findCourtIdsByName`. -/
structure CourtMatch where
  courtId : String
  matchedText : String
deriving DecidableEq, Repr

/-- JavaScript `match.fullMatch || normalizedInput`: a missing or empty
`fullMatch` falls back to the whole normalized input. -/
def jsOrStr (o : Option String) (dflt : String) : String :=
  match o with
  | none => dflt
  | some s => if s = "" then dflt else s

/-- The inner `for (const pcreRegex of courtRegexes)` loop of
`findCourtIdsByName`: return the first match result with
`match && match.matched`; a result with `matched` false does not stop
the loop. -/
def firstMatch : List Regex → String → Option MatchRes
  | [], _ => none
  | r :: rest, input =>
    match r input with
    | some m => if m.matched then some m else firstMatch rest input
    | none => firstMatch rest input

/-- The environment a query runs in: the loaded record list, the
compiled-regex map (`compiledRegexes[court.id] || []` is a total
function returning `[]` for unknown ids), and the input normalization
`unidecode(stripPunc(s)).toLowerCase()` (the `unidecode` package and
`stripPunc` live outside the embedded core, so normalization is an
abstract function of the environment). -/
structure Env where
  courts : List Court
  regexes : String → List Regex
  normalize : String → String

/-- The bankruptcy pre-filter guard of the scan loop: skip the record
when the flag is given (`!== null && !== undefined`) and differs from
`isBankruptcyCourt(court)`. -/
def bankSkips (bankruptcy : Option Bool) (court : Court) : Bool :=
  match bankruptcy with
  | none => false
  | some b => b != isBankruptcyCourt court

/-- The location pre-filter guard of the scan loop:
`if (location && !matchesLocation(court, location)) continue`. -/
def locSkips (location : Option String) (court : Court) : Bool :=
  match location with
  | none => false
  | some l => if l = "" then false else !matchesLocation court l

/-- The per-record scan of `findCourtIdsByName` (lines 71-97 of
`index.ts`): for each record passing the bankruptcy and location
guards, the first countable regex match contributes one candidate whose
matched text is `match.fullMatch || normalizedInput`. -/
def scanCourts (env : Env) (normalizedInput : String)
    (bankruptcy : Option Bool) (location : Option String) : List CourtMatch :=
  env.courts.filterMap fun court =>
    if bankSkips bankruptcy court then none
    else if locSkips location court then none
    else
      (firstMatch (env.regexes court.id) normalizedInput).map fun m =>
        ⟨court.id, jsOrStr m.fullMatch normalizedInput⟩

/-- The `parentIds` set built inside `reduceCourtMatches`: for each
candidate whose record exists (`dict[match.courtId]`) and has a truthy
`parent` (`if (court?.parent)`), that parent id. -/
def collectParentIds (matchList : List CourtMatch)
    (dict : String → Option Court) : List String :=
  matchList.filterMap fun m =>
    match dict m.courtId with
    | some c => if jsTruthyStr c.parent then c.parent else none
    | none => none

/-- `index.ts` `reduceCourtMatches`: with two or more candidates,
collect the truthy parent ids of the candidates' records and drop every
candidate whose own id is among them, unless that would empty the list,
in which case the original list is returned. -/
def reduceCourtMatches (matchList : List CourtMatch)
    (dict : String → Option Court) : List CourtMatch :=
  if matchList.length ≤ 1 then matchList
  else
    let reducedList := matchList.filter fun m =>
      decide (m.courtId ∉ collectParentIds matchList dict)
    if reducedList.length > 0 then reducedList else matchList

/-- The per-string test inside `filterSubstringMatches`: `str` is
suppressed when some *different* string of the list contains it
(`otherStr !== str && otherStr.includes(str)`). -/
def isSuppressedString (matchedStrings : List String) (str : String) : Bool :=
  matchedStrings.any fun otherStr =>
    decide (otherStr ≠ str) && jsIncludes otherStr str

/-- `index.ts` `filterSubstringMatches`: with two or more candidates,
drop every candidate whose matched text is a substring of a *different*
matched-text string in the list. -/
def filterSubstringMatches (matchList : List CourtMatch) : List CourtMatch :=
  if matchList.length ≤ 1 then matchList
  else
    let matchedStrings := matchList.map (·.matchedText)
    let filteredStrings := matchedStrings.filter fun str =>
      !isSuppressedString matchedStrings str
    matchList.filter fun m => decide (m.matchedText ∈ filteredStrings)

/-- `index.ts` `findCourtIdsByName`: normalize the input, scan every
record, reduce parent matches, filter substring matches, and return the
surviving ids.  The `allowPartialMatches` parameter is declared in the
source with default `false` and is kept here; the source body never
reads it. -/
def findCourtIdsByName (env : Env) (courtStr : String)
    (bankruptcy : Option Bool) (location : Option String)
    (allowPartialMatches : Bool := false) : List String :=
  let normalizedInput := env.normalize courtStr
  let matchList := scanCourts env normalizedInput bankruptcy location
  let reducedMatches := reduceCourtMatches matchList (makeCourtDictionary env.courts)
  let filteredMatches := filterSubstringMatches reducedMatches
  filteredMatches.map (·.courtId)

/-- `index.ts` `filterCourtsByDate`: a falsy date returns the input
unchanged; otherwise keep the ids whose dictionary record exists and is
active on the date (`court && isCourtActiveOnDate(court, date)`). -/
def filterCourtsByDate (dict : String → Option Court)
    (courtIds : List String) (date : Option Int) : List String :=
  match date with
  | none => courtIds
  | some _ =>
    courtIds.filter fun courtId =>
      match dict courtId with
      | some court => isCourtActiveOnDate court date
      | none => false

/-- `index.ts` `filterCourtsByBankruptcy`: a `null`/`undefined` flag
returns the input unchanged; otherwise keep the ids whose dictionary
record exists and whose `isBankruptcyCourt` classification equals the
flag. -/
def filterCourtsByBankruptcy (dict : String → Option Court)
    (courtIds : List String) (bankruptcy : Option Bool) : List String :=
  match bankruptcy with
  | none => courtIds
  | some b =>
    courtIds.filter fun courtId =>
      match dict courtId with
      | some court => isBankruptcyCourt court == b
      | none => false

/-! ## Concrete records and environments used by the claim theorems -/

/-- A record with a single two-bound range `[1990, 2000]`, for the boundary
checks of claim C7. -/
def boundaryCourt : Court :=
  { id := "b", name := "Boundary Court", dates := [⟨some 1990, some 2000⟩] }

/-- A record that is always active, used to witness claim C10. -/
def kCourt : Court :=
  { id := "k", name := "K Court", dates := [⟨none, none⟩] }

/-- A record whose `type` (category) field is `"bankruptcy"` but whose id and
name trigger none of `isBankruptcyCourt`'s substring tests. -/
def bankTypedCourt : Court :=
  { id := "xyz", name := "Special Tribunal", type := some "bankruptcy" }

/-- A record whose `type` is not `"bankruptcy"` but whose id contains the
substring `"bank"`. -/
def fairbanksCourt : Court :=
  { id := "fairbanks", name := "Fairbanks Court", type := some "appellate" }

/-- A record whose normalized name equals the (normalized) query below but
that has no usable pattern, exposing the absence of an exact-name fallback. -/
def nCourt : Court := { id := "n", name := "Supreme Court" }

/-- Environment for C1: one record, an empty compiled-pattern list for it,
and lower-casing as the normalization. -/
def envC1 : Env :=
  { courts := [nCourt]
    regexes := fun _ => []
    normalize := jsToLower }

/-- The single record of the C2 environment. -/
def xCourt : Court := { id := "x", name := "X Court" }

/-- Environment for C2: the record's one compiled pattern reports a match
whose matched text `"circuit court"` covers only part of the normalized
input. -/
def envC2 : Env :=
  { courts := [xCourt]
    regexes := fun id =>
      if id = "x" then [fun _ => some ⟨true, some "circuit court"⟩] else []
    normalize := jsToLower }

/-- Parent record of the C4 environment; its name contains the location
token `"px"`. -/
def pCourt : Court := { id := "p", name := "alpha px court" }

/-- Child record of the C4 environment, pointing at `pCourt`. -/
def cCourt : Court := { id := "c", name := "beta court", parent := some "p" }

/-- Environment for C4: both records match any input, with unrelated matched
texts, so without a location filter parent suppression removes `"p"`. -/
def envC4 : Env :=
  { courts := [pCourt, cCourt]
    regexes := fun id =>
      if id = "p" then [fun _ => some ⟨true, some "pp"⟩]
      else if id = "c" then [fun _ => some ⟨true, some "cc"⟩]
      else []
    normalize := jsToLower }

/-- The candidate list of the spec's own substring example. -/
def demoMatches : List CourtMatch :=
  [⟨"a", "circuit court"⟩, ⟨"b", "14th circuit court"⟩]

/-- The single record of the C8 counterexample: its parent id `"ghost"`
resolves to no record. -/
def ghostCourt : Court := { id := "a", name := "A Court", parent := some "ghost" }

/-- Grandparent record of the C9 counterexample. -/
def gCourt : Court :=
  { id := "g", name := "G", type := some "t", location := some "gloc",
    dates := [⟨some 0, none⟩] }

/-- Middle record of the C9 counterexample: child of `gCourt`, declared with
no `type`, `location` or `dates` of its own, and processed *before* its own
child because it precedes it in the list. -/
def pMidCourt : Court := { id := "p", name := "P", parent := some "g" }

/-- Last record of the C9 counterexample: child of `pMidCourt`. -/
def cLastCourt : Court := { id := "c", name := "C", parent := some "p" }

/-- First record of the C9 witness: a child whose parent occurs later in the
list. -/
def childFirstCourt : Court := { id := "c0", name := "C0", parent := some "p" }

/-- Second record of the C9 witness: the parent, with declared fields. -/
def parentSecondCourt : Court :=
  { id := "p", name := "P0", type := some "trial", location := some "ploc",
    dates := [⟨some 1, none⟩] }

/-! ## General lemmas about the filters -/

theorem mem_filterCourtsByDate_some {dict : String → Option Court}
    {courtIds : List String} {t : Int} {id : String} :
    id ∈ filterCourtsByDate dict courtIds (some t) ↔
      id ∈ courtIds ∧ ∃ c, dict id = some c ∧
        isCourtActiveOnDate c (some t) = true := by
  simp only [filterCourtsByDate, List.mem_filter]
  constructor
  · rintro ⟨hmem, hp⟩
    refine ⟨hmem, ?_⟩
    cases h : dict id with
    | none => rw [h] at hp; simp at hp
    | some c => rw [h] at hp; exact ⟨c, rfl, hp⟩
  · rintro ⟨hmem, c, hc, hact⟩
    exact ⟨hmem, by rw [hc]; exact hact⟩

theorem isCourtActiveOnDate_some_iff {c : Court} {t : Int} :
    isCourtActiveOnDate c (some t) = true ↔
      ∃ r ∈ c.dates,
        (r.start = none ∧ r.«end» = none) ∨
        (∃ s, r.start = some s ∧ r.«end» = none ∧ s ≤ t) ∨
        (∃ e, r.start = none ∧ r.«end» = some e ∧ t ≤ e) ∨
        (∃ s e, r.start = some s ∧ r.«end» = some e ∧ s ≤ t ∧ t ≤ e) := by
  simp only [isCourtActiveOnDate, List.any_eq_true]
  constructor
  · rintro ⟨r, hr, hb⟩
    refine ⟨r, hr, ?_⟩
    rcases hs : r.start with _ | s <;> rcases he : r.«end» with _ | e <;>
      rw [hs, he] at hb <;> simp_all
  · rintro ⟨r, hr, hcond⟩
    refine ⟨r, hr, ?_⟩
    rcases hcond with ⟨h1, h2⟩ | ⟨s, h1, h2, h3⟩ | ⟨e, h1, h2, h3⟩ |
        ⟨s, e, h1, h2, h3, h4⟩ <;> rw [h1, h2] <;> simp_all

theorem mem_filterCourtsByBankruptcy_some {dict : String → Option Court}
    {courtIds : List String} {b : Bool} {id : String} :
    id ∈ filterCourtsByBankruptcy dict courtIds (some b) ↔
      id ∈ courtIds ∧ ∃ c, dict id = some c ∧ isBankruptcyCourt c = b := by
  simp only [filterCourtsByBankruptcy, List.mem_filter]
  constructor
  · rintro ⟨hmem, hp⟩
    refine ⟨hmem, ?_⟩
    cases h : dict id with
    | none => rw [h] at hp; simp at hp
    | some c => rw [h] at hp; exact ⟨c, rfl, by simpa using hp⟩
  · rintro ⟨hmem, c, hc, hb⟩
    refine ⟨hmem, ?_⟩
    rw [hc]; simp [hb]

/-! ## Claim C7 — the date filter -/

/-- Claim C7. `filterCourtsByDate` keeps an id exactly when some range of its
record's `dates` contains the supplied point in time — a range with neither
bound is always active, a start-only range is active for points `≥ start`, an
end-only range for points `≤ end`, and a two-bound range on the closed
interval `[start, end]` — and with no point in time supplied it returns its
input unchanged.  The final conjunct checks the spec's boundary examples for
the range `[1990, 2000]`. -/
theorem c7_date_filter_spec (dict : String → Option Court)
    (courtIds : List String) (t : Int) (id : String) :
    filterCourtsByDate dict courtIds none = courtIds ∧
    (id ∈ filterCourtsByDate dict courtIds (some t) ↔
      id ∈ courtIds ∧ ∃ c, dict id = some c ∧ ∃ r ∈ c.dates,
        (r.start = none ∧ r.«end» = none) ∨
        (∃ s, r.start = some s ∧ r.«end» = none ∧ s ≤ t) ∨
        (∃ e, r.start = none ∧ r.«end» = some e ∧ t ≤ e) ∨
        (∃ s e, r.start = some s ∧ r.«end» = some e ∧ s ≤ t ∧ t ≤ e)) ∧
    (let bdict := makeCourtDictionary [boundaryCourt]
     filterCourtsByDate bdict ["b"] (some 1995) = ["b"] ∧
     filterCourtsByDate bdict ["b"] (some 1989) = [] ∧
     filterCourtsByDate bdict ["b"] (some 2001) = [] ∧
     filterCourtsByDate bdict ["b"] (some 1990) = ["b"] ∧
     filterCourtsByDate bdict ["b"] (some 2000) = ["b"]) := by
  refine ⟨rfl, ?_, by decide⟩
  rw [mem_filterCourtsByDate_some]
  simp only [isCourtActiveOnDate_some_iff]

/-- Witness for C7 at the boundary record: the interior point `1995` is
kept. -/
theorem c7_date_filter_spec_witness :
    filterCourtsByDate (makeCourtDictionary [boundaryCourt]) ["b"]
      (some 1995) = ["b"] :=
  (c7_date_filter_spec (makeCourtDictionary [boundaryCourt]) ["b"] 1995 "b").2.2.1

/-! ## Claim C10 — unknown ids and the date filter -/

/-- Claim C10. With a non-null date, `filterCourtsByDate` only ever returns ids
that resolve in the dictionary (unknown ids are removed), whereas with a null
date the input list is returned unchanged, unknown ids included. -/
theorem c10_date_filter_drops_unknown (dict : String → Option Court)
    (courtIds : List String) (t : Int) :
    (∀ id ∈ filterCourtsByDate dict courtIds (some t), (dict id).isSome = true) ∧
    filterCourtsByDate dict courtIds none = courtIds := by
  refine ⟨?_, rfl⟩
  intro id hid
  obtain ⟨_, c, hc, _⟩ := mem_filterCourtsByDate_some.mp hid
  rw [hc]; rfl

/-- Witness for C10: a known id that survives the date filter indeed resolves
in the dictionary. -/
theorem c10_date_filter_drops_unknown_witness :
    ((makeCourtDictionary [kCourt]) "k").isSome = true :=
  (c10_date_filter_drops_unknown (makeCourtDictionary [kCourt]) ["k"] 0).1 "k"
    (by decide)

/-! ## Claim C3 — the bankruptcy filter -/

/-- Claim C3, counterexample.  The bankruptcy filter is *not* decided by the
record's category field: a record with `type = "bankruptcy"` is dropped by
`filterCourtsByBankruptcy(_, true)` because its id and name fail the
substring heuristic, while a record of type `"appellate"` whose id happens to
contain `"bank"` is kept. -/
theorem c3_category_counterexample :
    bankTypedCourt.type = some "bankruptcy" ∧
    filterCourtsByBankruptcy (makeCourtDictionary [bankTypedCourt])
      ["xyz"] (some true) = [] ∧
    fairbanksCourt.type = some "appellate" ∧
    filterCourtsByBankruptcy (makeCourtDictionary [fairbanksCourt])
      ["fairbanks"] (some true) = ["fairbanks"] := by
  decide

/-- Claim C3, amended.  The bankruptcy filter keeps exactly the ids whose
dictionary record exists and whose `isBankruptcyCourt` classification — id
contains `"bap"` or `"bank"`, or lower-cased name contains `"bankruptcy"` —
equals the flag; it is a no-op when the flag is unspecified. -/
theorem c3_bankruptcy_filter_amended (dict : String → Option Court)
    (courtIds : List String) (b : Bool) (id : String) :
    filterCourtsByBankruptcy dict courtIds none = courtIds ∧
    (id ∈ filterCourtsByBankruptcy dict courtIds (some b) ↔
      id ∈ courtIds ∧ ∃ c, dict id = some c ∧ isBankruptcyCourt c = b) :=
  ⟨rfl, mem_filterCourtsByBankruptcy_some⟩

/-- Witness for the amended C3: the flag-absent no-op, at the
`fairbanksCourt` dictionary. -/
theorem c3_bankruptcy_filter_amended_witness :
    filterCourtsByBankruptcy (makeCourtDictionary [fairbanksCourt])
      ["fairbanks"] none = ["fairbanks"] :=
  (c3_bankruptcy_filter_amended (makeCourtDictionary [fairbanksCourt])
    ["fairbanks"] true "fairbanks").1

/-! ## Claim C1 — the exact-name fallback pass -/

/-- Claim C1, counterexample.  The per-record pattern scan yields zero
candidates, the record is eligible (no category or location filter) and its
normalized name equals the normalized input, yet `findCourtIdsByName`
returns the empty list: no secondary exact-name pass exists in the code. -/
theorem c1_fallback_counterexample :
    scanCourts envC1 (envC1.normalize "Supreme Court") none none = [] ∧
    envC1.normalize "Supreme Court" = envC1.normalize nCourt.name ∧
    bankSkips none nCourt = false ∧
    locSkips none nCourt = false ∧
    findCourtIdsByName envC1 "Supreme Court" none none false = [] := by
  decide

/-- Claim C1, amended.  `findCourtIdsByName` performs no secondary pass at
all: whenever the per-record pattern scan yields zero candidates the result
is the empty list.  (The record's display name participates in matching only
as an implicit compiled pattern added at regex-compilation time.) -/
theorem c1_no_fallback_amended (env : Env) (courtStr : String)
    (bankruptcy : Option Bool) (location : Option String)
    (allowPartialMatches : Bool)
    (h : scanCourts env (env.normalize courtStr) bankruptcy location = []) :
    findCourtIdsByName env courtStr bankruptcy location allowPartialMatches = [] := by
  simp only [findCourtIdsByName, h]
  rfl

/-- Witness for the amended C1, at the concrete environment of the
counterexample. -/
theorem c1_no_fallback_amended_witness :
    findCourtIdsByName envC1 "Supreme Court" none none false = [] :=
  c1_no_fallback_amended envC1 "Supreme Court" none none false (by decide)

/-! ## Claim C2 — partial matches with `allowPartialMatches = false` -/

/-- Claim C2.  With `allowPartialMatches = false` (the default), a pattern
match covering only a proper substring of the normalized input still
produces the record's id: the parameter is declared but never consulted, so
the partial match counts.  Here the matched text `"circuit court"` is a
strict substring of the normalized input `"foo circuit court"`, yet the id
is returned. -/
theorem c2_partial_match_counted :
    findCourtIdsByName envC2 "Foo Circuit Court" none none false = ["x"] ∧
    envC2.normalize "Foo Circuit Court" = "foo circuit court" ∧
    "circuit court" ≠ "foo circuit court" ∧
    jsIncludes "foo circuit court" "circuit court" = true := by
  decide

/-! ## Claim C4 — the location filter and the final id set -/

/-- Claim C4, counterexample.  The location filter does not always narrow the
final id set: without it, parent suppression drops `"p"` in favour of its
child `"c"`; with `location = "px"` the child is filtered out before
matching, parent suppression no longer applies, and the result is `["p"]`,
which is not a subset of `["c"]`. -/
theorem c4_location_counterexample :
    findCourtIdsByName envC4 "whatever" none (some "px") false = ["p"] ∧
    findCourtIdsByName envC4 "whatever" none none false = ["c"] ∧
    "p" ∉ (["c"] : List String) := by
  decide

/-- Claim C4, amended.  The location filter narrows the *pre-suppression*
candidate scan: every candidate produced with a location filter is also
produced without it.  (After the parent- and substring-suppression stages
the final id sets need not be nested, as the counterexample shows.) -/
theorem c4_scan_narrows (env : Env) (input : String) (bankruptcy : Option Bool)
    (l : String) (m : CourtMatch)
    (h : m ∈ scanCourts env input bankruptcy (some l)) :
    m ∈ scanCourts env input bankruptcy none := by
  simp only [scanCourts, List.mem_filterMap] at h ⊢
  obtain ⟨court, hc, hf⟩ := h
  refine ⟨court, hc, ?_⟩
  by_cases hb : bankSkips bankruptcy court
  · rw [if_pos hb] at hf; exact absurd hf (by simp)
  · rw [if_neg hb] at hf ⊢
    by_cases hl : locSkips (some l) court
    · rw [if_pos hl] at hf; exact absurd hf (by simp)
    · rw [if_neg hl] at hf
      simpa [locSkips] using hf

/-- Witness for the amended C4: the parent candidate found under
`location = "px"` is among the unfiltered candidates. -/
theorem c4_scan_narrows_witness :
    (⟨"p", "pp"⟩ : CourtMatch) ∈ scanCourts envC4 "whatever" none none :=
  c4_scan_narrows envC4 "whatever" none "px" ⟨"p", "pp"⟩ (by decide)

/-! ## Lemmas for the suppression passes -/

theorem exists_max_measure {α : Type} (f : α → Nat) (l : List α) (h : l ≠ []) :
    ∃ a ∈ l, ∀ b ∈ l, f b ≤ f a := by
  induction l with
  | nil => exact absurd rfl h
  | cons a t ih =>
    rcases t with _ | ⟨b, t2⟩
    · exact ⟨a, by simp, by simp⟩
    · obtain ⟨m, hm, hmax⟩ := ih (by simp)
      by_cases hc : f a ≤ f m
      · refine ⟨m, List.mem_cons_of_mem _ hm, ?_⟩
        intro x hx
        rcases List.mem_cons.mp hx with rfl | hx2
        · exact hc
        · exact hmax x hx2
      · refine ⟨a, List.mem_cons_self _ _, ?_⟩
        intro x hx
        rcases List.mem_cons.mp hx with rfl | hx2
        · exact Nat.le_refl _
        · exact Nat.le_trans (hmax x hx2) (Nat.le_of_not_le hc)

theorem length_lt_of_strict_substring {s t : String} (hne : t ≠ s)
    (hinf : s.data <:+: t.data) : s.data.length < t.data.length := by
  rcases Nat.lt_or_ge s.data.length t.data.length with h | h
  · exact h
  · exact absurd (String.ext (hinf.eq_of_length
      (Nat.le_antisymm hinf.length_le h))).symm hne

theorem isSuppressedString_iff {strs : List String} {s : String} :
    isSuppressedString strs s = true ↔
      ∃ t ∈ strs, t ≠ s ∧ s.data <:+: t.data := by
  simp [isSuppressedString, jsIncludes, List.any_eq_true]

theorem filterSubstringMatches_eq (matchList : List CourtMatch) :
    filterSubstringMatches matchList =
      matchList.filter fun m =>
        !isSuppressedString (matchList.map (·.matchedText)) m.matchedText := by
  unfold filterSubstringMatches
  rcases matchList with _ | ⟨a, _ | ⟨b, t⟩⟩
  · rfl
  · simp [isSuppressedString]
  · rw [if_neg (by simp)]
    apply List.filter_congr
    intro m hm
    have hmem : m.matchedText ∈ (a :: b :: t).map (·.matchedText) :=
      List.mem_map.mpr ⟨m, hm, rfl⟩
    rw [Bool.eq_iff_iff]
    simp only [decide_eq_true_eq, List.mem_filter]
    constructor
    · rintro ⟨_, h2⟩
      exact h2
    · intro h
      exact ⟨hmem, h⟩

theorem mem_filterSubstringMatches {matchList : List CourtMatch} {m : CourtMatch} :
    m ∈ filterSubstringMatches matchList ↔
      m ∈ matchList ∧
        ¬ ∃ m2 ∈ matchList, m2.matchedText ≠ m.matchedText ∧
            m.matchedText.data <:+: m2.matchedText.data := by
  rw [filterSubstringMatches_eq, List.mem_filter]
  constructor
  · rintro ⟨hm, hp⟩
    refine ⟨hm, ?_⟩
    rintro ⟨m2, hm2, hne, hinf⟩
    have : isSuppressedString (matchList.map (·.matchedText)) m.matchedText = true :=
      isSuppressedString_iff.mpr
        ⟨m2.matchedText, List.mem_map.mpr ⟨m2, hm2, rfl⟩, hne, hinf⟩
    rw [this] at hp
    exact absurd hp (by simp)
  · rintro ⟨hm, hno⟩
    refine ⟨hm, ?_⟩
    by_cases hs : isSuppressedString (matchList.map (·.matchedText)) m.matchedText
    · obtain ⟨t2, ht2, hne, hinf⟩ := isSuppressedString_iff.mp hs
      obtain ⟨m2, hm2, rfl⟩ := List.mem_map.mp ht2
      exact absurd ⟨m2, hm2, hne, hinf⟩ hno
    · simp [hs]

theorem filterSubstringMatches_subset {matchList : List CourtMatch} {m : CourtMatch}
    (h : m ∈ filterSubstringMatches matchList) : m ∈ matchList :=
  (mem_filterSubstringMatches.mp h).1

/-! ## Claim C5 — substring suppression -/

/-- Claim C5.  Substring suppression keeps a candidate exactly when its
matched text is not a strict substring of another surviving candidate's
matched text; candidates with equal matched texts share the same fate (in
particular, two candidates with the same matched text are never suppressed
by each other); and a non-empty candidate list never becomes empty. -/
theorem c5_substring_suppression (matchList : List CourtMatch) :
    (∀ m, m ∈ filterSubstringMatches matchList ↔
      m ∈ matchList ∧
        ¬ ∃ m2 ∈ filterSubstringMatches matchList,
            m2.matchedText ≠ m.matchedText ∧
            m.matchedText.data <:+: m2.matchedText.data) ∧
    (∀ m1 ∈ matchList, ∀ m2 ∈ matchList, m1.matchedText = m2.matchedText →
      (m1 ∈ filterSubstringMatches matchList ↔
        m2 ∈ filterSubstringMatches matchList)) ∧
    (matchList ≠ [] → filterSubstringMatches matchList ≠ []) := by
  refine ⟨?_, ?_, ?_⟩
  · intro m
    constructor
    · intro h
      obtain ⟨hm, hno⟩ := mem_filterSubstringMatches.mp h
      refine ⟨hm, ?_⟩
      rintro ⟨m2, hm2, hne, hinf⟩
      exact hno ⟨m2, filterSubstringMatches_subset hm2, hne, hinf⟩
    · rintro ⟨hm, hno⟩
      rw [mem_filterSubstringMatches]
      refine ⟨hm, ?_⟩
      rintro ⟨m2, hm2, hne, hinf⟩
      -- take a maximal-length candidate among those containing m's text
      set S := matchList.filter
        (fun x => decide (m.matchedText.data <:+: x.matchedText.data)) with hS
      have hm2S : m2 ∈ S := by
        rw [hS, List.mem_filter]
        exact ⟨hm2, by simpa using hinf⟩
      obtain ⟨m3, hm3S, hmax⟩ :=
        exists_max_measure (fun x => x.matchedText.data.length) S
          (List.ne_nil_of_mem hm2S)
      have hm3 : m3 ∈ matchList := (List.mem_filter.mp (hS ▸ hm3S)).1
      have hinf3 : m.matchedText.data <:+: m3.matchedText.data := by
        have := (List.mem_filter.mp (hS ▸ hm3S)).2
        simpa using this
      have hm3r : m3 ∈ filterSubstringMatches matchList := by
        rw [mem_filterSubstringMatches]
        refine ⟨hm3, ?_⟩
        rintro ⟨m4, hm4, hne4, hinf4⟩
        have hm4S : m4 ∈ S := by
          rw [hS, List.mem_filter]
          exact ⟨hm4, by simpa using hinf3.trans hinf4⟩
        have h1 := hmax m4 hm4S
        have h2 := length_lt_of_strict_substring hne4 hinf4
        omega
      have hlt : m.matchedText.data.length < m2.matchedText.data.length :=
        length_lt_of_strict_substring hne hinf
      have hle : m2.matchedText.data.length ≤ m3.matchedText.data.length :=
        hmax m2 hm2S
      have hne3 : m3.matchedText ≠ m.matchedText := by
        intro heq
        rw [heq] at hle
        omega
      exact hno ⟨m3, hm3r, hne3, hinf3⟩
  · intro m1 h1 m2 h2 heq
    rw [mem_filterSubstringMatches, mem_filterSubstringMatches, heq]
    simp [h1, h2]
  · intro h
    obtain ⟨m, hm, hmax⟩ :=
      exists_max_measure (fun x => x.matchedText.data.length) matchList h
    have : m ∈ filterSubstringMatches matchList := by
      rw [mem_filterSubstringMatches]
      refine ⟨hm, ?_⟩
      rintro ⟨m2, hm2, hne, hinf⟩
      have h1 := length_lt_of_strict_substring hne hinf
      have h2 := hmax m2 hm2
      omega
    exact List.ne_nil_of_mem this

/-- Witness for C5, on the spec's example: the `"14th circuit court"`
candidate survives and the result is non-empty. -/
theorem c5_substring_suppression_witness :
    (⟨"b", "14th circuit court"⟩ : CourtMatch) ∈
      filterSubstringMatches demoMatches ∧
    filterSubstringMatches demoMatches ≠ [] := by
  have h := c5_substring_suppression demoMatches
  exact ⟨(h.1 _).mpr ⟨by decide, by decide⟩, h.2.2 (by decide)⟩

/-! ## Claim C6 — parent suppression -/

theorem mem_collectParentIds {matchList : List CourtMatch}
    {dict : String → Option Court} {x : String} :
    x ∈ collectParentIds matchList dict ↔
      ∃ m ∈ matchList, ∃ c, dict m.courtId = some c ∧
        c.parent = some x ∧ x ≠ "" := by
  simp only [collectParentIds, List.mem_filterMap]
  constructor
  · rintro ⟨m, hm, hf⟩
    refine ⟨m, hm, ?_⟩
    cases hd : dict m.courtId with
    | none =>
      simp only [hd] at hf
      exact absurd hf (by simp)
    | some c =>
      simp only [hd] at hf
      by_cases ht : jsTruthyStr c.parent
      · rw [if_pos ht] at hf
        refine ⟨c, rfl, hf, ?_⟩
        rw [hf] at ht
        simpa [jsTruthyStr] using ht
      · rw [if_neg ht] at hf
        exact absurd hf (by simp)
  · rintro ⟨m, hm, c, hc, hp, hx⟩
    refine ⟨m, hm, ?_⟩
    simp only [hc]
    rw [hp]
    simp [jsTruthyStr, hx]

theorem reduceCourtMatches_eq (matchList : List CourtMatch)
    (dict : String → Option Court) :
    reduceCourtMatches matchList dict =
      if (matchList.filter fun m =>
            decide (m.courtId ∉ collectParentIds matchList dict)) = []
      then matchList
      else matchList.filter fun m =>
        decide (m.courtId ∉ collectParentIds matchList dict) := by
  unfold reduceCourtMatches
  rcases matchList with _ | ⟨a, _ | ⟨b, t⟩⟩
  · rfl
  · by_cases hp : a.courtId ∉ collectParentIds [a] dict
    · simp [hp]
    · simp [hp]
  · rw [if_neg (by simp)]
    simp only [decide_not]
    rcases hfe : (a :: b :: t).filter (fun m =>
        !decide (m.courtId ∈ collectParentIds (a :: b :: t) dict)) with _ | ⟨c, r⟩
    · simp [hfe]
    · simp [hfe]

/-- Claim C6.  Parent suppression, for records whose parent fields have been
normalized (no parent is the empty string): it drops exactly the candidates
whose own id appears as the parent id of some candidate's record, and if
every candidate would be dropped the original list is returned unchanged, so
a non-empty candidate list never becomes empty. -/
theorem c6_parent_suppression (matchList : List CourtMatch)
    (dict : String → Option Court)
    (hwf : ∀ m ∈ matchList, ∀ c, dict m.courtId = some c → c.parent ≠ some "") :
    (matchList ≠ [] → reduceCourtMatches matchList dict ≠ []) ∧
    ∀ m, (m ∈ reduceCourtMatches matchList dict ↔
      (m ∈ matchList ∧
        ¬ ∃ m2 ∈ matchList, ∃ c, dict m2.courtId = some c ∧
            c.parent = some m.courtId) ∨
      ((∀ m1 ∈ matchList, ∃ m2 ∈ matchList, ∃ c, dict m2.courtId = some c ∧
          c.parent = some m1.courtId) ∧ m ∈ matchList)) := by
  have hsup : ∀ m : CourtMatch, m ∈ matchList →
      (m.courtId ∈ collectParentIds matchList dict ↔
        ∃ m2 ∈ matchList, ∃ c, dict m2.courtId = some c ∧
          c.parent = some m.courtId) := by
    intro m _
    constructor
    · intro h
      obtain ⟨m2, hm2, c, hc, hp, _⟩ := mem_collectParentIds.mp h
      exact ⟨m2, hm2, c, hc, hp⟩
    · rintro ⟨m2, hm2, c, hc, hp⟩
      have hx : m.courtId ≠ "" := by
        intro h0
        exact hwf m2 hm2 c hc (h0 ▸ hp)
      exact mem_collectParentIds.mpr ⟨m2, hm2, c, hc, hp, hx⟩
  rw [reduceCourtMatches_eq]
  by_cases hfe : (matchList.filter fun m =>
      decide (m.courtId ∉ collectParentIds matchList dict)) = []
  · rw [if_pos hfe]
    have hall : ∀ m1 ∈ matchList, ∃ m2 ∈ matchList, ∃ c,
        dict m2.courtId = some c ∧ c.parent = some m1.courtId := by
      intro m1 hm1
      have := List.filter_eq_nil_iff.mp hfe m1 hm1
      simp only [decide_eq_true_eq, not_not] at this
      exact (hsup m1 hm1).mp this
    constructor
    · exact fun h => h
    · intro m
      constructor
      · intro hm
        exact Or.inr ⟨hall, hm⟩
      · rintro (⟨hm, _⟩ | ⟨_, hm⟩) <;> exact hm
  · rw [if_neg hfe]
    constructor
    · intro _
      exact hfe
    · intro m
      rw [List.mem_filter]
      constructor
      · rintro ⟨hm, hp⟩
        simp only [decide_eq_true_eq] at hp
        exact Or.inl ⟨hm, fun hex => hp ((hsup m hm).mpr hex)⟩
      · rintro (⟨hm, hno⟩ | ⟨hall, hm⟩)
        · refine ⟨hm, ?_⟩
          simp only [decide_eq_true_eq]
          exact fun hc => hno ((hsup m hm).mp hc)
        · exact absurd (List.filter_eq_nil_iff.mpr fun m1 hm1 => by
            simp only [decide_eq_true_eq, not_not]
            exact (hsup m1 hm1).mpr (hall m1 hm1)) hfe

/-- Witness for C6: a parent/child candidate pair under the dictionary built
from the C4 records; the step keeps the list non-empty. -/
theorem c6_parent_suppression_witness :
    reduceCourtMatches [⟨"p", "pp"⟩, ⟨"c", "cc"⟩]
      (makeCourtDictionary [pCourt, cCourt]) ≠ [] := by
  refine (c6_parent_suppression _ _ ?_).1 (by decide)
  intro m hm c hc
  have hm2 : m = (⟨"p", "pp"⟩ : CourtMatch) ∨ m = (⟨"c", "cc"⟩ : CourtMatch) := by
    simpa using hm
  rcases hm2 with rfl | rfl
  · have h1 : makeCourtDictionary [pCourt, cCourt]
        (CourtMatch.courtId ⟨"p", "pp"⟩) = some pCourt := by decide
    rw [h1] at hc
    obtain rfl : pCourt = c := by injection hc
    decide
  · have h1 : makeCourtDictionary [pCourt, cCourt]
        (CourtMatch.courtId ⟨"c", "cc"⟩) = some cCourt := by decide
    rw [h1] at hc
    obtain rfl : cCourt = c := by injection hc
    decide

/-! ## Lemmas for the inheritance pass -/

theorem set_self_of_getElem? {α : Type} {l : List α} {i : Nat} {a : α}
    (h : l[i]? = some a) : l.set i a = l := by
  induction l generalizing i with
  | nil => simp at h
  | cons x t ih =>
    cases i with
    | zero =>
      simp only [List.getElem?_cons_zero, Option.some.injEq] at h
      subst h
      rfl
    | succ n =>
      simp only [List.getElem?_cons_succ] at h
      simp [ih h]

theorem inheritFields_id (child parentC : Court) :
    (inheritFields child parentC).id = child.id := by
  unfold inheritFields
  dsimp only
  split <;> split <;> split <;> rfl

theorem inheritStep_of_getElem?_none {data : List Court} {i : Nat}
    (h : data[i]? = none) : inheritStep data i = data := by
  unfold inheritStep
  rw [h]

theorem inheritStep_of_parent_none {data : List Court} {i : Nat} {court : Court}
    (h : data[i]? = some court) (hp : normalizeParent court.parent = none) :
    inheritStep data i = data.set i { court with parent := none } := by
  unfold inheritStep
  rw [h]
  dsimp only
  rw [hp]

theorem inheritStep_of_find?_none {data : List Court} {i : Nat} {court : Court}
    {p : String} (h : data[i]? = some court)
    (hp : normalizeParent court.parent = some p)
    (hf : (data.set i { court with parent := some p }).find?
        (fun c => c.id == p) = none) :
    inheritStep data i = data.set i { court with parent := some p } := by
  unfold inheritStep
  rw [h]
  dsimp only
  rw [hp]
  dsimp only
  rw [hf]

theorem inheritStep_of_find?_some {data : List Court} {i : Nat} {court : Court}
    {p : String} {parentC : Court} (h : data[i]? = some court)
    (hp : normalizeParent court.parent = some p)
    (hf : (data.set i { court with parent := some p }).find?
        (fun c => c.id == p) = some parentC) :
    inheritStep data i = (data.set i { court with parent := some p }).set i
      (inheritFields { court with parent := some p } parentC) := by
  unfold inheritStep
  rw [h]
  dsimp only
  rw [hp]
  dsimp only
  rw [hf]

theorem inheritStep_length (data : List Court) (i : Nat) :
    (inheritStep data i).length = data.length := by
  rcases h : data[i]? with _ | court
  · rw [inheritStep_of_getElem?_none h]
  · rcases hp : normalizeParent court.parent with _ | p
    · rw [inheritStep_of_parent_none h hp]
      simp
    · rcases hf : (data.set i { court with parent := some p }).find?
          (fun c => c.id == p) with _ | parentC
      · rw [inheritStep_of_find?_none h hp hf]
        simp
      · rw [inheritStep_of_find?_some h hp hf]
        simp

theorem inheritStep_getElem?_ne (data : List Court) (i k : Nat) (hk : k ≠ i) :
    (inheritStep data i)[k]? = data[k]? := by
  have hne : i ≠ k := fun h => hk h.symm
  rcases h : data[i]? with _ | court
  · rw [inheritStep_of_getElem?_none h]
  · rcases hp : normalizeParent court.parent with _ | p
    · rw [inheritStep_of_parent_none h hp, List.getElem?_set_ne hne]
    · rcases hf : (data.set i { court with parent := some p }).find?
          (fun c => c.id == p) with _ | parentC
      · rw [inheritStep_of_find?_none h hp hf, List.getElem?_set_ne hne]
      · rw [inheritStep_of_find?_some h hp hf, List.getElem?_set_ne hne,
          List.getElem?_set_ne hne]

theorem map_id_set (data : List Court) (i : Nat) (court a : Court)
    (h : data[i]? = some court) (ha : a.id = court.id) :
    (data.set i a).map (·.id) = data.map (·.id) := by
  rw [List.map_set, ha]
  apply set_self_of_getElem?
  rw [List.getElem?_map, h]
  rfl

theorem inheritStep_map_id (data : List Court) (i : Nat) :
    (inheritStep data i).map (·.id) = data.map (·.id) := by
  rcases h : data[i]? with _ | court
  · rw [inheritStep_of_getElem?_none h]
  · have hlt : i < data.length := List.getElem?_eq_some_iff.mp h |>.1
    rcases hp : normalizeParent court.parent with _ | p
    · rw [inheritStep_of_parent_none h hp]
      exact map_id_set data i court _ h rfl
    · rcases hf : (data.set i { court with parent := some p }).find?
          (fun c => c.id == p) with _ | parentC
      · rw [inheritStep_of_find?_none h hp hf]
        exact map_id_set data i court _ h rfl
      · rw [inheritStep_of_find?_some h hp hf]
        have h1 : (data.set i { court with parent := some p })[i]? =
            some { court with parent := some p } := List.getElem?_set_self hlt
        rw [map_id_set (data.set i { court with parent := some p }) i
          { court with parent := some p } _ h1 (inheritFields_id _ _)]
        exact map_id_set data i court _ h rfl

theorem inheritLoop_length (fuel : Nat) (data : List Court) (i0 : Nat) :
    (inheritLoop fuel data i0).length = data.length := by
  induction fuel generalizing data i0 with
  | zero => rfl
  | succ f ih =>
    unfold inheritLoop
    by_cases h : i0 < data.length
    · rw [if_pos h, ih, inheritStep_length]
    · rw [if_neg h]

theorem inheritLoop_map_id (fuel : Nat) (data : List Court) (i0 : Nat) :
    (inheritLoop fuel data i0).map (·.id) = data.map (·.id) := by
  induction fuel generalizing data i0 with
  | zero => rfl
  | succ f ih =>
    unfold inheritLoop
    by_cases h : i0 < data.length
    · rw [if_pos h, ih, inheritStep_map_id]
    · rw [if_neg h]

theorem inheritLoop_getElem?_lt (fuel : Nat) (data : List Court) (i0 k : Nat)
    (hk : k < i0) : (inheritLoop fuel data i0)[k]? = data[k]? := by
  induction fuel generalizing data i0 with
  | zero => rfl
  | succ f ih =>
    unfold inheritLoop
    by_cases h : i0 < data.length
    · rw [if_pos h, ih _ _ (by omega), inheritStep_getElem?_ne _ _ _ (by omega)]
    · rw [if_neg h]

theorem inheritLoop_getElem?_ge (fuel : Nat) (data : List Court) (i0 k : Nat)
    (hk : i0 + fuel ≤ k) : (inheritLoop fuel data i0)[k]? = data[k]? := by
  induction fuel generalizing data i0 with
  | zero => rfl
  | succ f ih =>
    unfold inheritLoop
    by_cases h : i0 < data.length
    · rw [if_pos h, ih _ _ (by omega), inheritStep_getElem?_ne _ _ _ (by omega)]
    · rw [if_neg h]

theorem inheritLoop_succ (f : Nat) (data : List Court) (i : Nat) :
    inheritLoop (f + 1) data i =
      if i < data.length then inheritLoop f (inheritStep data i) (i + 1)
      else data := rfl

theorem inheritLoop_getElem?_eq_step (fuel : Nat) (data : List Court)
    (i0 k : Nat) (h0 : i0 ≤ k) (hfuel : k < i0 + fuel) (hlen : k < data.length) :
    (inheritLoop fuel data i0)[k]? =
      (inheritStep (inheritLoop (k - i0) data i0) k)[k]? := by
  induction fuel generalizing data i0 with
  | zero => omega
  | succ f ih =>
    have hcond : i0 < data.length := by omega
    rcases Nat.eq_or_lt_of_le h0 with rfl | hlt
    · rw [inheritLoop_succ, if_pos hcond]
      rw [inheritLoop_getElem?_lt f (inheritStep data i0) (i0 + 1) i0 (by omega)]
      simp only [Nat.sub_self]
      rfl
    · have hk1 : k - i0 = (k - (i0 + 1)) + 1 := by omega
      have hstep : inheritLoop (k - i0) data i0 =
          inheritLoop (k - (i0 + 1)) (inheritStep data i0) (i0 + 1) := by
        rw [hk1, inheritLoop_succ, if_pos hcond]
      rw [inheritLoop_succ, if_pos hcond]
      rw [ih (inheritStep data i0) (i0 + 1) (by omega) (by omega)
        (by rw [inheritStep_length]; omega)]
      rw [hstep]

theorem inheritFromParents_getElem?_eq_step (data : List Court) (k : Nat)
    (hlen : k < data.length) :
    (inheritFromParents data)[k]? =
      (inheritStep (inheritLoop k data 0) k)[k]? := by
  unfold inheritFromParents
  rw [inheritLoop_getElem?_eq_step data.length data 0 k (by omega) (by omega) hlen]
  simp

theorem find?_eq_some_of_first {α : Type} (P : α → Bool) (l : List α) (j : Nat)
    (x : α) (hx : l[j]? = some x) (hP : P x = true)
    (hfirst : ∀ k, k < j → ∀ y, l[k]? = some y → P y = false) :
    l.find? P = some x := by
  induction l generalizing j with
  | nil => simp at hx
  | cons h t ih =>
    cases j with
    | zero =>
      simp only [List.getElem?_cons_zero, Option.some.injEq] at hx
      subst hx
      simp [List.find?_cons, hP]
    | succ n =>
      have hPh : P h = false := hfirst 0 (Nat.succ_pos n) h (by simp)
      simp only [List.getElem?_cons_succ] at hx
      rw [List.find?_cons, hPh]
      exact ih n hx fun k hk y hy =>
        hfirst (k + 1) (by omega) y (by simpa using hy)

/-! ## Claim C8 — a parent id that does not resolve -/

theorem inheritStep_self_dangling {data : List Court} {i : Nat} {ci : Court}
    {p : String} (hci : data[i]? = some ci)
    (hp : normalizeParent ci.parent = some p) (hno : ∀ c ∈ data, c.id ≠ p) :
    (inheritStep data i)[i]? = some { ci with parent := some p } := by
  have hlt : i < data.length := (List.getElem?_eq_some_iff.mp hci).1
  have hf : (data.set i { ci with parent := some p }).find?
      (fun c => c.id == p) = none := by
    rw [List.find?_eq_none]
    intro x hx
    rcases List.mem_or_eq_of_mem_set hx with hmem | rfl
    · simp [hno x hmem]
    · have hmem : ci ∈ data := List.getElem?_mem hci
      simp [hno ci hmem]
  rw [inheritStep_of_find?_none hci hp hf]
  exact List.getElem?_set_self hlt

/-- Claim C8, amended.  A parent id that resolves to no record in the list is
silently ignored by the load pass: the record keeps its (normalized)
dangling parent reference, inherits nothing, and the pass completes — the
pass is a total function, so no load error is possible. -/
theorem c8_dangling_parent_ignored (data : List Court) (i : Nat) (ci : Court)
    (p : String) (hci : data[i]? = some ci)
    (hp : normalizeParent ci.parent = some p) (hno : ∀ c ∈ data, c.id ≠ p) :
    (inheritFromParents data)[i]? = some { ci with parent := some p } := by
  have hlt : i < data.length := (List.getElem?_eq_some_iff.mp hci).1
  rw [inheritFromParents_getElem?_eq_step data i hlt]
  have hSi : (inheritLoop i data 0)[i]? = some ci := by
    rw [inheritLoop_getElem?_ge i data 0 i (by omega)]
    exact hci
  have hids : (inheritLoop i data 0).map (·.id) = data.map (·.id) :=
    inheritLoop_map_id i data 0
  have hnoS : ∀ c ∈ inheritLoop i data 0, c.id ≠ p := by
    intro c hc
    have h1 : c.id ∈ (inheritLoop i data 0).map (·.id) :=
      List.mem_map.mpr ⟨c, hc, rfl⟩
    rw [hids] at h1
    obtain ⟨c2, hc2, he⟩ := List.mem_map.mp h1
    rw [← he]
    exact hno c2 hc2
  exact inheritStep_self_dangling hSi hp hnoS

/-- Claim C8, counterexample.  Registry construction does not fail on an
unresolvable parent id: the inheritance pass returns the record list
unchanged — the dangling reference is kept and no error is raised. -/
theorem c8_load_error_counterexample :
    inheritFromParents [ghostCourt] = [ghostCourt] ∧
    ghostCourt.parent = some "ghost" ∧
    ∀ c ∈ [ghostCourt], c.id ≠ "ghost" := by
  decide

/-- Witness for the amended C8, at the counterexample's record. -/
theorem c8_dangling_parent_ignored_witness :
    (inheritFromParents [ghostCourt])[0]? =
      some { ghostCourt with parent := some "ghost" } :=
  c8_dangling_parent_ignored [ghostCourt] 0 ghostCourt "ghost"
    (by decide) (by decide) (by decide)

/-! ## Claim C9 — one-level parent inheritance -/

theorem id_of_getElem?_of_map_id_eq {S data : List Court}
    (hids : S.map (·.id) = data.map (·.id)) {k : Nat} {y : Court}
    (hy : S[k]? = some y) : ∃ x, data[k]? = some x ∧ x.id = y.id := by
  have h1 : (S.map (·.id))[k]? = some y.id := by
    rw [List.getElem?_map, hy]
    rfl
  rw [hids, List.getElem?_map] at h1
  cases hx : data[k]? with
  | none => rw [hx] at h1; simp at h1
  | some x =>
    rw [hx] at h1
    simp only [Option.map_some', Option.some.injEq] at h1
    exact ⟨x, rfl, h1⟩

theorem inheritStep_self_found {data : List Court} {i j : Nat} {ci cj : Court}
    {p : String} (hci : data[i]? = some ci)
    (hp : normalizeParent ci.parent = some p) (hij : i < j)
    (hcj : data[j]? = some cj) (hjid : cj.id = p)
    (hfirst : ∀ k, k < j → ∀ y, data[k]? = some y → y.id ≠ p) :
    (inheritStep data i)[i]? =
      some (inheritFields { ci with parent := some p } cj) := by
  have hlt : i < data.length := (List.getElem?_eq_some_iff.mp hci).1
  have hf : (data.set i { ci with parent := some p }).find?
      (fun c => c.id == p) = some cj := by
    apply find?_eq_some_of_first _ _ j
    · rw [List.getElem?_set_ne (by omega : i ≠ j)]
      exact hcj
    · simp [hjid]
    · intro k hk y hy
      by_cases hki : k = i
      · rw [hki, List.getElem?_set_self hlt] at hy
        obtain rfl : { ci with parent := some p } = y := by
          injection hy
        have hne : ci.id ≠ p := hfirst i hij ci hci
        simpa using hne
      · rw [List.getElem?_set_ne (fun h => hki h.symm)] at hy
        have hne := hfirst k hk y hy
        simpa using hne
  rw [inheritStep_of_find?_some hci hp hf]
  exact List.getElem?_set_self (by rw [List.length_set]; exact hlt)

/-- Claim C9, amended.  Parent inheritance reads the parent's *current* state
during a single in-place pass in list order.  When the parent record occurs
(first) *after* the child in the list, it has not yet been processed, so the
child inherits the parent's fields exactly as originally declared — the
behaviour the claim describes.  (When the parent occurs before the child the
pass can hand down values the parent itself just inherited from a
grandparent, as the counterexample shows.) -/
theorem c9_inherit_from_later_parent (data : List Court) (i j : Nat)
    (ci cj : Court) (p : String) (hci : data[i]? = some ci)
    (hp : normalizeParent ci.parent = some p) (hij : i < j)
    (hcj : data[j]? = some cj) (hjid : cj.id = p)
    (hfirst : ∀ k, k < j → ∀ y, data[k]? = some y → y.id ≠ p) :
    (inheritFromParents data)[i]? =
      some (inheritFields { ci with parent := some p } cj) := by
  have hlt : i < data.length := (List.getElem?_eq_some_iff.mp hci).1
  rw [inheritFromParents_getElem?_eq_step data i hlt]
  have hge : ∀ k, i ≤ k → (inheritLoop i data 0)[k]? = data[k]? :=
    fun k hk => inheritLoop_getElem?_ge i data 0 k (by omega)
  have hids : (inheritLoop i data 0).map (·.id) = data.map (·.id) :=
    inheritLoop_map_id i data 0
  apply inheritStep_self_found (p := p)
  · rw [hge i (Nat.le_refl i)]
    exact hci
  · exact hp
  · exact hij
  · rw [hge j (by omega)]
    exact hcj
  · exact hjid
  · intro k hk y hy
    obtain ⟨x, hx, hxy⟩ := id_of_getElem?_of_map_id_eq hids hy
    rw [← hxy]
    exact hfirst k hk x hx

/-- Claim C9, counterexample.  Inheritance is *not* limited to the parent's
originally declared fields: with the list `[gCourt, pMidCourt, cLastCourt]`,
the parent `pMidCourt` is processed first and inherits `gCourt`'s `type`,
`location` and `dates`; the child `cLastCourt` then receives those
grandparent values, although `pMidCourt` declared none of them. -/
theorem c9_one_level_counterexample :
    pMidCourt.location = none ∧ pMidCourt.type = none ∧
    pMidCourt.dates = [] ∧ gCourt.location = some "gloc" ∧
    (inheritFromParents [gCourt, pMidCourt, cLastCourt])[2]? =
      some { id := "c", name := "C", parent := some "p", type := some "t",
             location := some "gloc", jurisdiction := none,
             dates := [⟨some 0, none⟩] } := by
  decide

/-- Witness for the amended C9: a child that precedes its parent inherits
the parent's originally declared fields. -/
theorem c9_inherit_from_later_parent_witness :
    (inheritFromParents [childFirstCourt, parentSecondCourt])[0]? =
      some (inheritFields { childFirstCourt with parent := some "p" }
        parentSecondCourt) :=
  c9_inherit_from_later_parent [childFirstCourt, parentSecondCourt] 0 1
    childFirstCourt parentSecondCourt "p" (by decide) (by decide)
    (by omega) (by decide) (by decide)
    (by
      intro k hk y hy
      have hk0 : k = 0 := by omega
      subst hk0
      have : childFirstCourt = y := by simpa using hy
      rw [← this]
      decide)

end CourtsDb
